import Mathlib

/-!
Verification of the ECOS solver adapter
(`cvxpy/reductions/solvers/conic_solvers/ecos_conif.py`).

The adapter translates a structured conic problem into the flat
arrays the ECOS solver expects (`apply`), and translates the raw
numeric result back into a structured `Solution` (`invert`).
Numeric entries are modelled as rationals; matrices as lists of rows.

Collaborator code that lives outside this file in the repository
(constraint grouping, coefficient extraction and stacking, dual
scatter, the failure-solution factory, the status-string constants)
is modelled from the specification; each such definition carries a
doc comment starting with `Modelled from the spec:`.
-/

namespace ECOSif

/-- CVXPY solution status constants (from `cvxpy.settings`). -/
inductive Status
  | optimal
  | infeasible
  | unbounded
  | optimal_inaccurate
  | infeasible_inaccurate
  | unbounded_inaccurate
  | solver_error
  deriving DecidableEq, Repr

/-- Modelled from the spec: the adapter-level error taxonomy of §7
(`UnsupportedConstraint`, `MalformedObjective`, `UnknownExitCode`);
in the Python source these surface as exceptions (a missing dict key
for the exit-code table, upstream validation for the other two). -/
inductive AdapterError
  | unsupportedConstraint
  | malformedObjective
  | unknownExitCode (code : Int)
  deriving DecidableEq, Repr

/-- Decidable equality of fallible results, so that concrete runs of
the adapter can be checked by evaluation. -/
instance {ε α : Type} [DecidableEq ε] [DecidableEq α] :
    DecidableEq (Except ε α)
  | .error a, .error b => decidable_of_iff (a = b) (by simp)
  | .error _, .ok _ => .isFalse (by simp)
  | .ok _, .error _ => .isFalse (by simp)
  | .ok a, .ok b => decidable_of_iff (a = b) (by simp)

/-- `ECOS.STATUS_MAP` as an association list: the fixed table from the
source mapping ECOS exit codes to CVXPY statuses. -/
def STATUS_MAP_ENTRIES : List (Int × Status) :=
  [(0, .optimal), (1, .infeasible), (2, .unbounded),
   (10, .optimal_inaccurate), (11, .infeasible_inaccurate),
   (12, .unbounded_inaccurate),
   (-1, .solver_error), (-2, .solver_error), (-3, .solver_error),
   (-4, .solver_error), (-7, .solver_error)]

/-- Lookup in `STATUS_MAP`; `none` models the `KeyError` raised by a
Python dict access on a missing key. -/
def STATUS_MAP (code : Int) : Option Status :=
  STATUS_MAP_ENTRIES.lookup code

/-- Modelled from the spec: the set of "solution present" statuses of
§4.5.3 (`s.SOLUTION_PRESENT` in `cvxpy.settings`, not under `src/`):
optimal and its inaccurate variant carry a meaningful primal cost. -/
def SOLUTION_PRESENT : List Status :=
  [.optimal, .optimal_inaccurate]

/-- `ECOS.EXP_CONE_ORDER`: order of exponential cone arguments for the
solver. -/
def EXP_CONE_ORDER : List Nat := [0, 2, 1]

/-- A constraint of the generic problem, tagged by kind, carrying its
identity and the coefficient-extraction result `(matrix, offset)` of
its affine expression (rows of `matrix` are the constraint's scalar
rows).  `unsupported` stands for any constraint kind outside the four
recognized kinds. -/
inductive Constraint
  | zero (id : Nat) (mat : List (List ℚ)) (off : List ℚ)
  | nonpos (id : Nat) (mat : List (List ℚ)) (off : List ℚ)
  | soc (id : Nat) (cone_sizes : List Nat) (mat : List (List ℚ)) (off : List ℚ)
  | expcone (id : Nat) (num_cones : Nat) (mat : List (List ℚ)) (off : List ℚ)
  | unsupported (id : Nat)
  deriving DecidableEq, Repr

namespace Constraint

/-- The constraint's identity (`c.id` in the source). -/
def id : Constraint → Nat
  | zero i _ _ => i
  | nonpos i _ _ => i
  | soc i _ _ _ => i
  | expcone i _ _ _ => i
  | unsupported i => i

/-- Total element count of the constraint (`np.prod(c.size)` for
NonPos/Zero, the sum of `cone_sizes()` for SOC, three rows per cone
for ExpCone). -/
def size : Constraint → Nat
  | zero _ m _ => m.length
  | nonpos _ m _ => m.length
  | soc _ szs _ _ => szs.sum
  | expcone _ k _ _ => 3 * k
  | unsupported _ => 0

/-- `c.cone_sizes()` for a SOC constraint. -/
def cone_sizes : Constraint → List Nat
  | soc _ szs _ _ => szs
  | _ => []

/-- `c.num_cones()` for an ExpCone constraint. -/
def num_cones : Constraint → Nat
  | expcone _ k _ _ => k
  | _ => 0

/-- The coefficient matrix of the constraint's extraction. -/
def mat : Constraint → List (List ℚ)
  | zero _ m _ => m
  | nonpos _ m _ => m
  | soc _ _ m _ => m
  | expcone _ _ m _ => m
  | unsupported _ => []

/-- The offset vector of the constraint's extraction. -/
def off : Constraint → List ℚ
  | zero _ _ o => o
  | nonpos _ _ o => o
  | soc _ _ _ o => o
  | expcone _ _ _ o => o
  | unsupported _ => []

/-- Kind test: equality constraint. -/
def isZero : Constraint → Bool
  | zero _ _ _ => true
  | _ => false

/-- Kind test: inequality (NonPos) constraint. -/
def isNonPos : Constraint → Bool
  | nonpos _ _ _ => true
  | _ => false

/-- Kind test: second-order cone constraint. -/
def isSOC : Constraint → Bool
  | soc _ _ _ _ => true
  | _ => false

/-- Kind test: exponential cone constraint. -/
def isExpCone : Constraint → Bool
  | expcone _ _ _ _ => true
  | _ => false

/-- Kind test: constraint kind outside the four recognized ones. -/
def isUnsupported : Constraint → Bool
  | unsupported _ => true
  | _ => false

end Constraint

/-- Apply a row-selection order to one cone block: entry `j` of the
output is entry `order[j]` of the input block. -/
def permute (order : List Nat) (block : List α) : List α :=
  order.filterMap (fun i => block.get? i)

/-- Apply `permute order` to each consecutive 3-row cone block of a
vector holding `k` cones. -/
def permute_blocks (order : List Nat) : Nat → List α → List α
  | 0, _ => []
  | k + 1, v => permute order (v.take 3) ++ permute_blocks order k (v.drop 3)

/-- The inverse of a row-selection order: position `i` of the output
names the slot to which the forward order sent index `i`. -/
def inverse_order (order : List Nat) : List Nat :=
  (List.range order.length).map (fun i => order.indexOf i)

/-- The inverse of `EXP_CONE_ORDER`, used by the dual scatter. -/
def EXP_CONE_INV_ORDER : List Nat := inverse_order EXP_CONE_ORDER

/-- The four ordered groups produced by constraint grouping
(`constr_map` in the source, keyed by `Zero`, `NonPos`, `SOC`,
`ExpCone`). -/
structure ConstrMap where
  zeros : List Constraint
  nonpos : List Constraint
  soc : List Constraint
  expcone : List Constraint
  deriving DecidableEq, Repr

/-- Modelled from the spec: `group_constraints`
(`cvxpy.reductions.solvers.solver`, not under `src/`) partitions the
flat constraint list into four ordered sublists, one per recognized
kind, preserving each kind's relative original order, and fails with
`UnsupportedConstraint` on any other kind (§4.1). -/
def group_constraints : List Constraint → Except AdapterError ConstrMap
  | [] => .ok ⟨[], [], [], []⟩
  | .zero i m o :: cs =>
    (group_constraints cs).map (fun g => { g with zeros := .zero i m o :: g.zeros })
  | .nonpos i m o :: cs =>
    (group_constraints cs).map (fun g => { g with nonpos := .nonpos i m o :: g.nonpos })
  | .soc i szs m o :: cs =>
    (group_constraints cs).map (fun g => { g with soc := .soc i szs m o :: g.soc })
  | .expcone i k m o :: cs =>
    (group_constraints cs).map (fun g => { g with expcone := .expcone i k m o :: g.expcone })
  | .unsupported _ :: _ => .error .unsupportedConstraint

/-- The objective of the generic problem.  `minimize` carries the
coefficient-extraction result `(matrix, offset-vector)` of its single
argument; other shapes stand for objectives that are not an affine
scalar minimization. -/
inductive Objective
  | minimize (mat : List (List ℚ)) (off : List ℚ)
  | maximize (mat : List (List ℚ)) (off : List ℚ)
  | nonAffine
  deriving DecidableEq, Repr

/-- The generic problem: an objective, the identifiers of its decision
variable blocks (`problem.variables()`), and a flat ordered list of
constraints. -/
structure Problem where
  objective : Objective
  var_ids : List Nat
  constraints : List Constraint
  deriving DecidableEq, Repr

/-- Cone dimension descriptor `data[s.DIMS]`: `l` nonnegative count,
`q` ordered SOC block sizes, `e` count of exponential cone triples. -/
structure Dims where
  l : Nat
  q : List Nat
  e : Nat
  deriving DecidableEq, Repr

/-- The flat solver arguments built by `apply` (`data` in the source). -/
structure SolverData where
  c : List ℚ
  offset : List ℚ
  A : List (List ℚ)
  b : List ℚ
  G : List (List ℚ)
  h : List ℚ
  dims : Dims
  deriving DecidableEq, Repr

/-- The inversion context built by `apply` (`inv_data` in the source):
variable identity, objective offset scalar, and the literal ordered
equality and non-equality constraint lists used to build `A` and `G`. -/
structure InvData where
  var_id : Nat
  offset : ℚ
  eq_constr : List Constraint
  neq_constr : List Constraint
  deriving DecidableEq, Repr

/-- Modelled from the spec: the per-constraint formatting step inside
`ConicSolver.group_coeff_offset` (`conic_solver.py`, not under
`src/`): an exponential cone constraint's three coordinate rows are
permuted per cone into the solver ordering `exp_cone_order` before
stacking; all other kinds keep their rows (§4.2.5). -/
def format_rows (exp_cone_order : List Nat) (c : Constraint) : List (List ℚ) :=
  match c with
  | .expcone _ k m _ => permute_blocks exp_cone_order k m
  | c => c.mat

/-- Modelled from the spec: the offset entries are reordered together
with the rows (§4.2.5, applied identically to matrix and offset). -/
def format_off (exp_cone_order : List Nat) (c : Constraint) : List ℚ :=
  match c with
  | .expcone _ k _ o => permute_blocks exp_cone_order k o
  | c => c.off

/-- Modelled from the spec: `ConicSolver.group_coeff_offset`
(`conic_solver.py`, not under `src/`) row-stacks each constraint's own
coefficient extraction, preserving group order (§4.2 steps 2 and 4). -/
def group_coeff_offset (constraints : List Constraint)
    (exp_cone_order : List Nat) : List (List ℚ) × List ℚ :=
  ((constraints.map (format_rows exp_cone_order)).flatten,
   (constraints.map (format_off exp_cone_order)).flatten)

/-- `ECOS.apply`: builds the flat solver arguments and the inversion
context.  The objective validation (a single scalar affine
minimization over exactly one variable block, else
`MalformedObjective`) is modelled from the spec (§4.2 error
conditions; in the repository it lives in upstream `accepts`
validation and coefficient extraction, not under `src/`); it runs
with step 1, before constraint grouping, matching both the source's
call order and the spec's step order. -/
def apply (problem : Problem) : Except AdapterError (SolverData × InvData) :=
  match problem.var_ids, problem.objective with
  | [vid], .minimize cmat coff =>
    if cmat.length = 1 ∧ coff.length = 1 then
      match group_constraints problem.constraints with
      | .error e => .error e
      | .ok constr_map =>
        let ab := group_coeff_offset constr_map.zeros EXP_CONE_ORDER
        let dims : Dims :=
          { l := (constr_map.nonpos.map Constraint.size).sum,
            q := (constr_map.soc.map Constraint.cone_sizes).flatten,
            e := (constr_map.expcone.map Constraint.num_cones).sum }
        let neq_constr := constr_map.nonpos ++ constr_map.soc ++ constr_map.expcone
        let gh := group_coeff_offset neq_constr EXP_CONE_ORDER
        .ok ({ c := cmat.flatten, offset := coff, A := ab.1, b := ab.2,
               G := gh.1, h := gh.2, dims := dims },
             { var_id := vid, offset := coff.headI,
               eq_constr := constr_map.zeros, neq_constr := neq_constr })
    else .error .malformedObjective
  | _, _ => .error .malformedObjective

/-- The `info` part of the raw ECOS result: exit code, primal cost,
timing and iteration metadata. -/
structure RawInfo where
  exitFlag : Int
  pcost : ℚ
  tsolve : ℚ
  tsetup : ℚ
  iter : Nat
  deriving DecidableEq, Repr

/-- The raw ECOS result: `info` metadata, primal vector `x`, equality
dual vector `y`, inequality/cone dual vector `z`. -/
structure RawResult where
  info : RawInfo
  x : List ℚ
  y : List ℚ
  z : List ℚ
  deriving DecidableEq, Repr

/-- The attributes bundle of a Solution (solve time, setup time,
iteration count); `none` for an entry absent from the dict. -/
structure SolAttr where
  solve_time : Option ℚ
  setup_time : Option ℚ
  num_iters : Option Nat
  deriving DecidableEq, Repr

/-- The structured Solution returned to the caller: status, optimal
value (`none` when undefined), primal map (variable id to vector),
dual map (constraint id to vector), attributes. -/
structure Solution where
  status : Status
  opt_val : Option ℚ
  primal_vars : List (Nat × List ℚ)
  dual_vars : List (Nat × List ℚ)
  attr : SolAttr
  deriving DecidableEq, Repr

/-- Modelled from the spec: `failure_solution`
(`cvxpy.reductions.solution`, not under `src/`) builds the canonical
failure Solution carrying only the translated status — no primal or
dual maps, no optimal value (§4.5.4); the source call site passes it
only the status. -/
def failure_solution (status : Status) : Solution :=
  { status := status, opt_val := none, primal_vars := [], dual_vars := [],
    attr := { solve_time := none, setup_time := none, num_iters := none } }

/-- Modelled from the spec: the inverse row permutation a dual block
receives in the scatter — exponential cone blocks get the inverse of
the forward `EXP_CONE_ORDER` permutation, per cone; other kinds are
untouched (§4.5.3c). -/
def scatter_block (c : Constraint) (v : List ℚ) : List ℚ :=
  match c with
  | .expcone _ k _ _ => permute_blocks EXP_CONE_INV_ORDER k v
  | _ => v

/-- Modelled from the spec: `ConicSolver.get_dual_values`
(`conic_solver.py`, not under `src/`) scatters a flat dual vector
back onto the recorded constraint list in order, slicing by each
constraint's element count and keying by constraint identity
(§4.5.3c). -/
def get_dual_values (result_vec : List ℚ) :
    List Constraint → List (Nat × List ℚ)
  | [] => []
  | c :: cs =>
    (c.id, scatter_block c (result_vec.take c.size)) ::
      get_dual_values (result_vec.drop c.size) cs

/-- `ECOS.invert`: translates the raw result back into a Solution.
The table lookup on a code outside `STATUS_MAP` fails with
`UnknownExitCode` (a `KeyError` in the Python source). -/
def invert (solution : RawResult) (inverse_data : InvData) :
    Except AdapterError Solution :=
  match STATUS_MAP solution.info.exitFlag with
  | none => .error (.unknownExitCode solution.info.exitFlag)
  | some status =>
    let attr : SolAttr :=
      { solve_time := some solution.info.tsolve,
        setup_time := some solution.info.tsetup,
        num_iters := some solution.info.iter }
    if status ∈ SOLUTION_PRESENT then
      let opt_val := solution.info.pcost + inverse_data.offset
      let primal_vars := [(inverse_data.var_id, solution.x)]
      let eq_dual := get_dual_values solution.y inverse_data.eq_constr
      let leq_dual := get_dual_values solution.z inverse_data.neq_constr
      .ok { status := status, opt_val := some opt_val,
            primal_vars := primal_vars, dual_vars := eq_dual ++ leq_dual,
            attr := attr }
    else
      .ok (failure_solution status)

/-- The argument bundle `solve_via_data` hands to the opaque solver
call `ecos.solve(c, G, h, dims, A, b, verbose=verbose, **solver_opts)`. -/
structure SolverCallArgs where
  c : List ℚ
  G : List (List ℚ)
  h : List ℚ
  dims : Dims
  A : List (List ℚ)
  b : List ℚ
  verbose : Bool
  solver_opts : List (String × ℚ)
  deriving DecidableEq, Repr

/-- `ECOS.solve_via_data`, modelled up to the opaque solver: it
returns the exact argument bundle passed to `ecos.solve`. -/
def solve_via_data (data : SolverData) (warm_start : Bool)
    (verbose : Bool) (solver_opts : List (String × ℚ)) : SolverCallArgs :=
  { c := data.c, G := data.G, h := data.h, dims := data.dims,
    A := data.A, b := data.b, verbose := verbose,
    solver_opts := solver_opts }

/-! ### Helper lemmas -/

/-- Successful grouping yields exactly the four kind-filtered sublists
of the input, each in its original relative order. -/
lemma group_constraints_ok_eq :
    ∀ (cs : List Constraint) (m : ConstrMap),
      group_constraints cs = .ok m →
      m.zeros = cs.filter Constraint.isZero ∧
      m.nonpos = cs.filter Constraint.isNonPos ∧
      m.soc = cs.filter Constraint.isSOC ∧
      m.expcone = cs.filter Constraint.isExpCone := by
  intro cs
  induction cs with
  | nil =>
    intro m h
    simp only [group_constraints] at h
    cases h
    simp
  | cons c cs ih =>
    intro m h
    cases c
    case unsupported i =>
      rw [group_constraints] at h
      exact Except.noConfusion h
    all_goals
      rw [group_constraints] at h
      cases hg : group_constraints cs <;> rw [hg] at h <;>
        simp only [Except.map] at h
      case error => exact Except.noConfusion h
      case ok g =>
        injection h with h
        subst h
        obtain ⟨h1, h2, h3, h4⟩ := ih _ hg
        simp [List.filter, Constraint.isZero, Constraint.isNonPos,
          Constraint.isSOC, Constraint.isExpCone, h1, h2, h3, h4]

/-- Mapping over an `Except` value neither creates nor removes an
error. -/
lemma except_map_error_iff (f : α → β) (r : Except ε α) (e : ε) :
    Except.map f r = .error e ↔ r = .error e := by
  cases r <;> simp [Except.map]

/-- Grouping fails with `UnsupportedConstraint` exactly when the list
holds a constraint of an unrecognized kind. -/
lemma group_constraints_err_iff (cs : List Constraint) :
    group_constraints cs = .error .unsupportedConstraint ↔
      ∃ c ∈ cs, c.isUnsupported = true := by
  induction cs with
  | nil => simp [group_constraints]
  | cons c cs ih =>
    cases c
    case unsupported i =>
      simp [group_constraints, Constraint.isUnsupported]
    all_goals
      rw [group_constraints, except_map_error_iff, ih]
      simp [Constraint.isUnsupported]

/-- Eliminator for a successful `apply`: recovers the objective shape,
the grouping result, and the exact solver data and inversion context
built from them. -/
lemma apply_ok_elim (p : Problem) (data : SolverData) (inv : InvData)
    (h : apply p = .ok (data, inv)) :
    ∃ vid cmat coff m,
      p.var_ids = [vid] ∧ p.objective = .minimize cmat coff ∧
      cmat.length = 1 ∧ coff.length = 1 ∧
      group_constraints p.constraints = .ok m ∧
      data = { c := cmat.flatten, offset := coff,
               A := (group_coeff_offset m.zeros EXP_CONE_ORDER).1,
               b := (group_coeff_offset m.zeros EXP_CONE_ORDER).2,
               G := (group_coeff_offset (m.nonpos ++ m.soc ++ m.expcone)
                       EXP_CONE_ORDER).1,
               h := (group_coeff_offset (m.nonpos ++ m.soc ++ m.expcone)
                       EXP_CONE_ORDER).2,
               dims := { l := (m.nonpos.map Constraint.size).sum,
                         q := (m.soc.map Constraint.cone_sizes).flatten,
                         e := (m.expcone.map Constraint.num_cones).sum } } ∧
      inv = { var_id := vid, offset := coff.headI, eq_constr := m.zeros,
              neq_constr := m.nonpos ++ m.soc ++ m.expcone } := by
  simp only [apply] at h
  split at h
  case h_2 => exact Except.noConfusion h
  case h_1 =>
    rename_i x1 x2 vid cmat coff hv hobj
    split at h
    case isFalse => exact Except.noConfusion h
    case isTrue hlen =>
      split at h
      case h_1 => exact Except.noConfusion h
      case h_2 m hg =>
        injection h with h
        refine ⟨vid, cmat, coff, m, hv, hobj, hlen.1, hlen.2, hg,
          (congrArg Prod.fst h).symm, (congrArg Prod.snd h).symm⟩

/-- The populated Solution `invert` builds on the solution-present
branch. -/
def present_solution (raw : RawResult) (inv : InvData) (st : Status) :
    Solution :=
  { status := st, opt_val := some (raw.info.pcost + inv.offset),
    primal_vars := [(inv.var_id, raw.x)],
    dual_vars := get_dual_values raw.y inv.eq_constr ++
      get_dual_values raw.z inv.neq_constr,
    attr := { solve_time := some raw.info.tsolve,
              setup_time := some raw.info.tsetup,
              num_iters := some raw.info.iter } }

/-- On a translated status that is solution-present, `invert` returns
the populated Solution. -/
lemma invert_present (raw : RawResult) (inv : InvData) (st : Status)
    (h1 : STATUS_MAP raw.info.exitFlag = some st)
    (h2 : st ∈ SOLUTION_PRESENT) :
    invert raw inv = .ok (present_solution raw inv st) := by
  rw [invert, h1]
  simp [h2, present_solution]

/-- On a translated status that is not solution-present, `invert`
returns the canonical failure Solution. -/
lemma invert_absent (raw : RawResult) (inv : InvData) (st : Status)
    (h1 : STATUS_MAP raw.info.exitFlag = some st)
    (h2 : st ∉ SOLUTION_PRESENT) :
    invert raw inv = .ok (failure_solution st) := by
  rw [invert, h1]
  simp [h2]

/-- On an exit code outside the table, `invert` fails. -/
lemma invert_unknown (raw : RawResult) (inv : InvData)
    (h : STATUS_MAP raw.info.exitFlag = none) :
    invert raw inv = .error (.unknownExitCode raw.info.exitFlag) := by
  rw [invert, h]

/-- An exit code outside the table's key set has no entry. -/
lemma STATUS_MAP_eq_none (code : Int)
    (h : code ∉ [(0 : Int), 1, 2, 10, 11, 12, -1, -2, -3, -4, -7]) :
    STATUS_MAP code = none := by
  simp only [List.mem_cons, List.not_mem_nil, or_false, not_or] at h
  obtain ⟨g0, g1, g2, g10, g11, g12, gm1, gm2, gm3, gm4, gm7⟩ := h
  simp [STATUS_MAP, STATUS_MAP_ENTRIES, List.lookup,
    beq_eq_false_iff_ne.mpr g0, beq_eq_false_iff_ne.mpr g1,
    beq_eq_false_iff_ne.mpr g2, beq_eq_false_iff_ne.mpr g10,
    beq_eq_false_iff_ne.mpr g11, beq_eq_false_iff_ne.mpr g12,
    beq_eq_false_iff_ne.mpr gm1, beq_eq_false_iff_ne.mpr gm2,
    beq_eq_false_iff_ne.mpr gm3, beq_eq_false_iff_ne.mpr gm4,
    beq_eq_false_iff_ne.mpr gm7]

/-! ### Sample inputs used by the closed witnesses -/

/-- Sample raw result with exit code 3 (outside the status table). -/
def rawCode3 : RawResult :=
  { info := { exitFlag := 3, pcost := 0, tsolve := 0, tsetup := 0,
              iter := 0 },
    x := [], y := [], z := [] }

/-- Sample inversion context with no constraints. -/
def invEmpty : InvData :=
  { var_id := 0, offset := 0, eq_constr := [], neq_constr := [] }

/-! ### Claims -/

/-- Claim C1: for every raw result whose exit code is a key of the
fixed status table {0, 1, 2, 10, 11, 12, -1, -2, -3, -4, -7},
`invert` returns a Solution whose status is exactly the table's image
of that code (0 to Optimal, 1 to Infeasible, 2 to Unbounded,
10/11/12 to the inaccurate variants, every negative code to
SolverError); for every exit code not in the table, `invert` fails
with `UnknownExitCode` and never returns a Solution with a defaulted
status. -/
theorem invert_status_totality (raw : RawResult) (inv : InvData) :
    (STATUS_MAP 0 = some .optimal ∧ STATUS_MAP 1 = some .infeasible ∧
     STATUS_MAP 2 = some .unbounded ∧
     STATUS_MAP 10 = some .optimal_inaccurate ∧
     STATUS_MAP 11 = some .infeasible_inaccurate ∧
     STATUS_MAP 12 = some .unbounded_inaccurate ∧
     STATUS_MAP (-1) = some .solver_error ∧
     STATUS_MAP (-2) = some .solver_error ∧
     STATUS_MAP (-3) = some .solver_error ∧
     STATUS_MAP (-4) = some .solver_error ∧
     STATUS_MAP (-7) = some .solver_error) ∧
    (∀ st, STATUS_MAP raw.info.exitFlag = some st →
       ∃ sol, invert raw inv = .ok sol ∧ sol.status = st) ∧
    (raw.info.exitFlag ∉ [(0 : Int), 1, 2, 10, 11, 12, -1, -2, -3, -4, -7] →
       invert raw inv = .error (.unknownExitCode raw.info.exitFlag)) := by
  refine ⟨by decide, ?_, ?_⟩
  · intro st hst
    by_cases hp : st ∈ SOLUTION_PRESENT
    · exact ⟨present_solution raw inv st, invert_present raw inv st hst hp, rfl⟩
    · exact ⟨failure_solution st, invert_absent raw inv st hst hp, rfl⟩
  · intro hmem
    exact invert_unknown raw inv (STATUS_MAP_eq_none _ hmem)

/-- Witness for C1 at exit code 3 (not in the table) on concrete
inputs. -/
theorem invert_status_totality_witness :
    invert rawCode3 invEmpty = .error (.unknownExitCode 3) :=
  (invert_status_totality rawCode3 invEmpty).2.2 (by decide)

/-- Total row count of the constraints preceding position `i` of a
constraint list: the start of constraint `i`'s slice in the stacked
vector. -/
def sizes_before (cs : List Constraint) (i : Nat) : Nat :=
  ((cs.take i).map Constraint.size).sum

/-- The dual scatter produces one entry per constraint. -/
lemma get_dual_values_length :
    ∀ (cs : List Constraint) (vec : List ℚ),
      (get_dual_values vec cs).length = cs.length := by
  intro cs
  induction cs with
  | nil => intro vec; rfl
  | cons c cs ih => intro vec; simp [get_dual_values, ih]

/-- Entry `i` of the dual scatter is keyed by constraint `i`'s
identity and carries the slice of the flat vector starting at the
total size of the preceding constraints, with the per-kind inverse
permutation applied. -/
lemma get_dual_values_get? :
    ∀ (cs : List Constraint) (vec : List ℚ) (i : Nat)
      (h : i < cs.length),
      (get_dual_values vec cs).get? i =
        some ((cs.get ⟨i, h⟩).id,
          scatter_block (cs.get ⟨i, h⟩)
            ((vec.drop (sizes_before cs i)).take (cs.get ⟨i, h⟩).size)) := by
  intro cs
  induction cs with
  | nil => intro vec i h; exact absurd h (by simp)
  | cons c cs ih =>
    intro vec i h
    cases i with
    | zero => simp [get_dual_values, sizes_before]
    | succ i =>
      have hi : i < cs.length := Nat.lt_of_succ_lt_succ h
      have := ih (vec.drop c.size) i hi
      simp only [get_dual_values, List.get?_cons_succ, this,
        sizes_before, List.take_succ_cons, List.map_cons, List.sum_cons,
        List.drop_drop, List.get_cons_succ]

/-- The inverse exponential-cone order is again `[0, 2, 1]` (the
forward order is a self-inverse transposition of rows 1 and 2). -/
lemma EXP_CONE_INV_ORDER_eq : EXP_CONE_INV_ORDER = [0, 2, 1] := by
  decide

/-- Sample exponential-cone constraint with one cone. -/
def conExp : Constraint :=
  .expcone 7 1 [[1], [2], [3]] [1, 2, 3]

/-- Sample inversion context holding one exponential-cone constraint. -/
def invExp : InvData :=
  { var_id := 0, offset := 0, eq_constr := [], neq_constr := [conExp] }

/-- Sample optimal raw result. -/
def rawOpt : RawResult :=
  { info := { exitFlag := 0, pcost := 3, tsolve := 1, tsetup := 2,
              iter := 5 },
    x := [4], y := [], z := [10, 20, 30] }

/-- Claim C2: for every raw result with a solution-present status,
`invert` scatters the raw inequality/cone dual vector back onto the
recorded non-equality constraint list in the same order used to build
`G` (entry `i`, keyed by constraint `i`'s identity, carries the slice
starting at the total size of the preceding constraints), applying
the inverse of the exponential-cone row permutation `[0, 2, 1]` to
the rows of every exponential-cone dual block; applying the forward
permutation to any 3-row cone block and then the inverse permutation
used by the dual scatter yields the original block unchanged. -/
theorem invert_dual_scatter (raw : RawResult) (inv : InvData)
    (st : Status) (sol : Solution)
    (h1 : STATUS_MAP raw.info.exitFlag = some st)
    (h2 : st ∈ SOLUTION_PRESENT)
    (h3 : invert raw inv = .ok sol) :
    (∀ i (h : i < inv.neq_constr.length),
       sol.dual_vars.get? (inv.eq_constr.length + i) =
         some ((inv.neq_constr.get ⟨i, h⟩).id,
           scatter_block (inv.neq_constr.get ⟨i, h⟩)
             ((raw.z.drop (sizes_before inv.neq_constr i)).take
               (inv.neq_constr.get ⟨i, h⟩).size))) ∧
    (∀ cid k m o v, scatter_block (.expcone cid k m o) v =
       permute_blocks EXP_CONE_INV_ORDER k v) ∧
    (∀ v : List ℚ, v.length = 3 →
       permute EXP_CONE_INV_ORDER (permute EXP_CONE_ORDER v) = v) := by
  have hps := invert_present raw inv st h1 h2
  rw [h3] at hps
  injection hps with hps
  subst hps
  refine ⟨?_, fun cid k m o v => rfl, ?_⟩
  · intro i h
    have hlen : (get_dual_values raw.y inv.eq_constr).length =
        inv.eq_constr.length := get_dual_values_length _ _
    show (get_dual_values raw.y inv.eq_constr ++
        get_dual_values raw.z inv.neq_constr).get?
        (inv.eq_constr.length + i) = _
    rw [List.get?_append_right (by rw [hlen]; exact Nat.le_add_right _ _),
      hlen, Nat.add_sub_cancel_left]
    exact get_dual_values_get? inv.neq_constr raw.z i h
  · intro v hv
    match v, hv with
    | [a, b, c], _ =>
      rw [EXP_CONE_INV_ORDER_eq]
      rfl

/-- Witness for C2 on a concrete one-cone problem: the dual block
`[10, 20, 30]` is scattered as `[10, 30, 20]` onto the recorded
exponential-cone constraint. -/
theorem invert_dual_scatter_witness :
    invert rawOpt invExp = .ok (present_solution rawOpt invExp .optimal) ∧
    (present_solution rawOpt invExp .optimal).dual_vars.get? 0 =
      some (7, [10, 30, 20]) := by
  have hinv : invert rawOpt invExp =
      .ok (present_solution rawOpt invExp .optimal) :=
    invert_present rawOpt invExp .optimal (by decide) (by decide)
  have h := invert_dual_scatter rawOpt invExp .optimal
    (present_solution rawOpt invExp .optimal) (by decide) (by decide) hinv
  refine ⟨hinv, ?_⟩
  have h0 := h.1 0 (by decide)
  simpa [invExp, conExp, rawOpt, sizes_before, scatter_block,
    permute_blocks, permute, EXP_CONE_INV_ORDER_eq] using h0

/-- On an equality constraint the formatting step is the identity on
the extraction's rows (only exponential cones are permuted). -/
lemma format_rows_of_isZero (o : List Nat) (c : Constraint)
    (h : c.isZero = true) : format_rows o c = c.mat := by
  cases c <;> simp_all [Constraint.isZero, format_rows]

/-- On an equality constraint the formatting step is the identity on
the extraction's offset entries. -/
lemma format_off_of_isZero (o : List Nat) (c : Constraint)
    (h : c.isZero = true) : format_off o c = c.off := by
  cases c <;> simp_all [Constraint.isZero, format_off]

/-- Claim C3: `apply` builds `G`/`h` from the constraint list formed
by concatenating, in this exact order, the inequality (NonPos)
constraints, then the SOC constraints, then the exponential-cone
constraints, each sublist preserving its original relative order, and
records exactly that concatenated list in the inversion context as
the non-equality constraints; the rows of `A` (and entries of `b`)
correspond 1:1, in order, to the original equality-constraint list,
which is likewise recorded in the inversion context. -/
theorem apply_constraint_order (p : Problem) (data : SolverData)
    (inv : InvData) (h : apply p = .ok (data, inv)) :
    inv.neq_constr =
      p.constraints.filter Constraint.isNonPos ++
      p.constraints.filter Constraint.isSOC ++
      p.constraints.filter Constraint.isExpCone ∧
    inv.eq_constr = p.constraints.filter Constraint.isZero ∧
    data.G = (inv.neq_constr.map (format_rows EXP_CONE_ORDER)).flatten ∧
    data.h = (inv.neq_constr.map (format_off EXP_CONE_ORDER)).flatten ∧
    data.A = (inv.eq_constr.map Constraint.mat).flatten ∧
    data.b = (inv.eq_constr.map Constraint.off).flatten := by
  obtain ⟨vid, cmat, coff, m, hv, hobj, hc1, hc2, hg, hdata, hinv⟩ :=
    apply_ok_elim p data inv h
  obtain ⟨hz, hn, hs, he⟩ := group_constraints_ok_eq _ _ hg
  have hmap : ∀ (f g : Constraint → List (List ℚ)),
      (∀ c, c.isZero = true → f c = g c) →
      m.zeros.map f = m.zeros.map g := by
    intro f g hfg
    apply List.map_congr_left
    intro c hc
    rw [hz] at hc
    exact hfg c (List.mem_filter.mp hc).2
  subst hdata hinv
  refine ⟨by rw [hn, hs, he], hz, rfl, rfl, ?_, ?_⟩
  · show (group_coeff_offset m.zeros EXP_CONE_ORDER).1 = _
    rw [group_coeff_offset]
    exact congrArg List.flatten
      (hmap _ _ (fun c hc => format_rows_of_isZero _ c hc))
  · show (group_coeff_offset m.zeros EXP_CONE_ORDER).2 = _
    rw [group_coeff_offset]
    refine congrArg List.flatten (List.map_congr_left ?_)
    intro c hc
    rw [hz] at hc
    exact format_off_of_isZero _ c (List.mem_filter.mp hc).2

/-- Sample equality constraint. -/
def conZ : Constraint := .zero 3 [[1]] [6]

/-- Sample inequality (NonPos) constraint. -/
def conNP : Constraint := .nonpos 4 [[1]] [7]

/-- Sample second-order cone constraint with one cone of size 2. -/
def conSOC : Constraint := .soc 5 [2] [[1], [0]] [8, 9]

/-- Sample problem `minimize 2 x + 5` with one constraint of each
recognized kind, listed out of group order. -/
def pSample : Problem :=
  { objective := .minimize [[2]] [5], var_ids := [1],
    constraints := [conZ, conExp, conNP, conSOC] }

/-- The solver data `apply` builds for `pSample`. -/
def dataSample : SolverData :=
  { c := [2], offset := [5], A := [[1]], b := [6],
    G := [[1], [1], [0], [1], [3], [2]], h := [7, 8, 9, 1, 3, 2],
    dims := { l := 1, q := [2], e := 1 } }

/-- The inversion context `apply` builds for `pSample`. -/
def invSample : InvData :=
  { var_id := 1, offset := 5, eq_constr := [conZ],
    neq_constr := [conNP, conSOC, conExp] }

/-- Witness for C3 on `pSample`: the recorded non-equality list is
`[NonPos, SOC, ExpCone]` and the equality rows of `A` are the
equality constraint's own rows. -/
theorem apply_constraint_order_witness :
    apply pSample = .ok (dataSample, invSample) ∧
    invSample.neq_constr = [conNP, conSOC, conExp] ∧
    invSample.eq_constr = [conZ] ∧
    dataSample.A = (invSample.eq_constr.map Constraint.mat).flatten := by
  have hap : apply pSample = .ok (dataSample, invSample) := by decide
  have h := apply_constraint_order pSample dataSample invSample hap
  exact ⟨hap, h.1.trans (by decide), h.2.1.trans (by decide),
    h.2.2.2.2.1.trans (by decide)⟩

/-- Sample raw result with exit code 1 (infeasible) and nonzero
timing metadata. -/
def rawFail1 : RawResult :=
  { info := { exitFlag := 1, pcost := 9, tsolve := 5, tsetup := 6,
              iter := 7 },
    x := [], y := [], z := [] }

/-- Counterexample to C4 as stated: for exit code 1 the translated
status is a failure status, and the returned Solution is the failure
sentinel whose attributes do not carry the raw result's solve time
(5), setup time (6) or iteration count (7) — the source passes only
the status to `failure_solution`, discarding the computed attribute
dict. -/
theorem invert_attr_failure_cex :
    invert rawFail1 invEmpty = .ok (failure_solution .infeasible) ∧
    rawFail1.info.tsolve = 5 ∧
    (failure_solution Status.infeasible).attr.solve_time = none ∧
    (failure_solution Status.infeasible).attr.setup_time = none ∧
    (failure_solution Status.infeasible).attr.num_iters = none := by
  decide

/-- Claim C4, amended: for every raw result whose exit code is in the
status table, `invert` populates the attributes of the returned
Solution with the solve time, setup time and iteration count taken
from the raw result exactly when the translated status is
solution-present; for every other status it returns the canonical
failure Solution, which carries no attributes. -/
theorem invert_attr_amended (raw : RawResult) (inv : InvData)
    (st : Status) (h1 : STATUS_MAP raw.info.exitFlag = some st) :
    (st ∈ SOLUTION_PRESENT →
       ∃ sol, invert raw inv = .ok sol ∧
         sol.attr.solve_time = some raw.info.tsolve ∧
         sol.attr.setup_time = some raw.info.tsetup ∧
         sol.attr.num_iters = some raw.info.iter) ∧
    (st ∉ SOLUTION_PRESENT →
       invert raw inv = .ok (failure_solution st) ∧
       (failure_solution st).attr.solve_time = none ∧
       (failure_solution st).attr.setup_time = none ∧
       (failure_solution st).attr.num_iters = none) := by
  constructor
  · intro h2
    exact ⟨present_solution raw inv st,
      invert_present raw inv st h1 h2, rfl, rfl, rfl⟩
  · intro h2
    exact ⟨invert_absent raw inv st h1 h2, rfl, rfl, rfl⟩

/-- Witness for the amended C4 at exit code 0 (attributes populated
from the raw result) and at exit code 1 (no attributes). -/
theorem invert_attr_amended_witness :
    (invert rawFail1 invEmpty = .ok (failure_solution .infeasible) ∧
     (failure_solution Status.infeasible).attr.solve_time = none ∧
     (failure_solution Status.infeasible).attr.setup_time = none ∧
     (failure_solution Status.infeasible).attr.num_iters = none) ∧
    (present_solution rawOpt invEmpty Status.optimal).attr.solve_time =
      some 1 :=
  ⟨(invert_attr_amended rawFail1 invEmpty .infeasible (by decide)).2
      (by decide),
   by
    obtain ⟨sol, hsol, ht, -, -⟩ :=
      (invert_attr_amended rawOpt invEmpty .optimal (by decide)).1
        (by decide)
    rw [invert_present rawOpt invEmpty .optimal (by decide) (by decide)]
      at hsol
    injection hsol with hsol
    rw [hsol, ht]
    decide⟩

/-- Claim C5: `apply` records as the objective offset the scalar at
index 0 of the offset vector extracted from the objective's argument,
and for every raw result with a solution-present status, `invert`
returns an optimal value equal to the raw primal cost plus that
recorded offset. -/
theorem apply_invert_offset (p : Problem) (data : SolverData)
    (inv : InvData) (raw : RawResult) (st : Status)
    (ha : apply p = .ok (data, inv))
    (h1 : STATUS_MAP raw.info.exitFlag = some st)
    (h2 : st ∈ SOLUTION_PRESENT) :
    (∀ cmat coff, p.objective = .minimize cmat coff →
       inv.offset = coff.headI) ∧
    ∃ sol, invert raw inv = .ok sol ∧
      sol.opt_val = some (raw.info.pcost + inv.offset) := by
  obtain ⟨vid, cmat, coff, m, hv, hobj, hc1, hc2, hg, hdata, hinv⟩ :=
    apply_ok_elim p data inv ha
  constructor
  · intro cmat' coff' hobj'
    rw [hobj] at hobj'
    injection hobj' with h1' h2'
    rw [hinv, ← h2']
  · exact ⟨present_solution raw inv st,
      invert_present raw inv st h1 h2, rfl⟩

/-- Witness for C5 on `pSample` (`minimize 2 x + 5`) with raw primal
cost 3: the recorded offset is 5 and the optimal value is 8. -/
theorem apply_invert_offset_witness :
    invSample.offset = 5 ∧
    invert rawOpt invSample =
      .ok (present_solution rawOpt invSample .optimal) ∧
    (present_solution rawOpt invSample Status.optimal).opt_val = some 8 := by
  have hap : apply pSample = .ok (dataSample, invSample) := by decide
  have h := apply_invert_offset pSample dataSample invSample rawOpt
    .optimal hap (by decide) (by decide)
  have hoff : invSample.offset = 5 := by
    have h5 := h.1 [[2]] [5] (by decide)
    simpa using h5
  refine ⟨hoff,
    invert_present rawOpt invSample .optimal (by decide) (by decide), ?_⟩
  show some (rawOpt.info.pcost + invSample.offset) = some 8
  rw [hoff]
  norm_num [rawOpt]

/-- Claim C6: for every raw result whose translated status is not a
solution-present status (e.g. exit code 1, Infeasible), `invert`
returns the canonical failure Solution carrying only the translated
status: no primal variable map, no dual variable map, and an
undefined optimal value. -/
theorem invert_failure_shape (raw : RawResult) (inv : InvData)
    (st : Status) (h1 : STATUS_MAP raw.info.exitFlag = some st)
    (h2 : st ∉ SOLUTION_PRESENT) :
    invert raw inv = .ok (failure_solution st) ∧
    (failure_solution st).status = st ∧
    (failure_solution st).primal_vars = [] ∧
    (failure_solution st).dual_vars = [] ∧
    (failure_solution st).opt_val = none :=
  ⟨invert_absent raw inv st h1 h2, rfl, rfl, rfl, rfl⟩

/-- Witness for C6 at exit code 1: status Infeasible, empty maps,
undefined optimal value. -/
theorem invert_failure_shape_witness :
    invert rawFail1 invEmpty = .ok (failure_solution .infeasible) ∧
    (failure_solution Status.infeasible).status = .infeasible ∧
    (failure_solution Status.infeasible).primal_vars = [] ∧
    (failure_solution Status.infeasible).dual_vars = [] ∧
    (failure_solution Status.infeasible).opt_val = none :=
  invert_failure_shape rawFail1 invEmpty .infeasible (by decide) (by decide)

/-- Claim C7: the dims descriptor produced by `apply` satisfies:
`dims.l` is the total element count summed over all inequality
(NonPos) constraints; `dims.q` is the concatenation, in constraint
order, of every second-order cone's block sizes across all SOC
constraints; `dims.e` is the total number of exponential-cone triples
summed over all exponential-cone constraints. -/
theorem apply_dims (p : Problem) (data : SolverData) (inv : InvData)
    (h : apply p = .ok (data, inv)) :
    data.dims.l =
      ((p.constraints.filter Constraint.isNonPos).map Constraint.size).sum ∧
    data.dims.q =
      ((p.constraints.filter Constraint.isSOC).map
        Constraint.cone_sizes).flatten ∧
    data.dims.e =
      ((p.constraints.filter Constraint.isExpCone).map
        Constraint.num_cones).sum := by
  obtain ⟨vid, cmat, coff, m, hv, hobj, hc1, hc2, hg, hdata, hinv⟩ :=
    apply_ok_elim p data inv h
  obtain ⟨hz, hn, hs, he⟩ := group_constraints_ok_eq _ _ hg
  subst hdata
  exact ⟨by rw [hn], by rw [hs], by rw [he]⟩

/-- Witness for C7 on `pSample`: `l = 1`, `q = [2]`, `e = 1`. -/
theorem apply_dims_witness :
    dataSample.dims.l = 1 ∧ dataSample.dims.q = [2] ∧
    dataSample.dims.e = 1 := by
  have hap : apply pSample = .ok (dataSample, invSample) := by decide
  have h := apply_dims pSample dataSample invSample hap
  exact ⟨h.1.trans (by decide), h.2.1.trans (by decide),
    h.2.2.trans (by decide)⟩

/-- The structural precondition on the objective (§4.2): a single
scalar affine minimization (one-row coefficient matrix, one-entry
offset vector) over exactly one decision-variable block. -/
def well_formed_objective (p : Problem) : Prop :=
  (∃ cmat coff, p.objective = .minimize cmat coff ∧
     cmat.length = 1 ∧ coff.length = 1) ∧
  ∃ v, p.var_ids = [v]

/-- Claim C8: for every problem whose objective is not a single
scalar affine minimization over exactly one decision-variable block,
`apply` fails with `MalformedObjective` before any solver invocation,
and never returns solver arguments. -/
theorem apply_malformed_objective (p : Problem)
    (h : ¬ well_formed_objective p) :
    apply p = .error .malformedObjective := by
  rw [apply]
  split
  case h_1 =>
    rename_i x1 x2 vid cmat coff hv hobj
    rw [if_neg]
    intro hlen
    exact h ⟨⟨cmat, coff, hobj, hlen.1, hlen.2⟩, vid, hv⟩
  case h_2 => rfl

/-- Sample problem with a maximization objective. -/
def pMax : Problem :=
  { objective := .maximize [[2]] [5], var_ids := [1], constraints := [] }

/-- Witness for C8 on a maximization problem. -/
theorem apply_malformed_objective_witness :
    apply pMax = .error .malformedObjective :=
  apply_malformed_objective pMax (by
    rintro ⟨⟨cmat, coff, hobj, -, -⟩, -⟩
    simp [pMax] at hobj)

/-- Sample problem with both a malformed objective and an
unsupported-kind constraint. -/
def pBoth : Problem :=
  { objective := .nonAffine, var_ids := [1],
    constraints := [conZ, .unsupported 9] }

/-- Counterexample to C9 as stated: `pBoth` contains a constraint
kind outside the four recognized kinds, yet `apply` fails with
`MalformedObjective`, not `UnsupportedConstraint`, because objective
extraction (step 1) runs before constraint grouping (step 2). -/
theorem apply_unsupported_cex :
    Constraint.unsupported 9 ∈ pBoth.constraints ∧
    apply pBoth = .error .malformedObjective ∧
    AdapterError.malformedObjective ≠ .unsupportedConstraint := by
  decide

/-- Claim C9, amended: for every problem whose objective passes the
structural validation, if the constraint list contains a constraint
kind outside {Equality, Inequality, SecondOrderCone, ExponentialCone}
then `apply` fails with `UnsupportedConstraint` (propagated from the
grouping step to the caller, not swallowed) before any solver call;
when the objective is also malformed, `MalformedObjective` is
reported instead. -/
theorem apply_unsupported_amended (p : Problem)
    (hwf : well_formed_objective p)
    (hun : ∃ c ∈ p.constraints, c.isUnsupported = true) :
    apply p = .error .unsupportedConstraint := by
  obtain ⟨⟨cmat, coff, hobj, hc1, hc2⟩, v, hv⟩ := hwf
  rw [apply, hv, hobj]
  dsimp only
  rw [if_pos ⟨hc1, hc2⟩, (group_constraints_err_iff p.constraints).mpr hun]

/-- Sample well-formed problem holding an unsupported constraint. -/
def pWithUnsupported : Problem :=
  { objective := .minimize [[2]] [5], var_ids := [1],
    constraints := [Constraint.unsupported 9] }

/-- Witness for the amended C9. -/
theorem apply_unsupported_amended_witness :
    apply pWithUnsupported = .error .unsupportedConstraint :=
  apply_unsupported_amended pWithUnsupported
    ⟨⟨[[2]], [5], rfl, rfl, rfl⟩, 1, rfl⟩
    ⟨Constraint.unsupported 9, by decide, rfl⟩

/-- Claim C10: the arguments `solve_via_data` passes to the opaque
solver — and hence its result for a fixed deterministic solver — are
independent of the `warm_start` argument: for every fixed
(data, verbose, solver_opts) and any two values of `warm_start`, the
opaque solver is invoked with identical arguments. -/
theorem solve_via_data_warm_start_independent (data : SolverData)
    (verbose : Bool) (solver_opts : List (String × ℚ))
    (w1 w2 : Bool) :
    solve_via_data data w1 verbose solver_opts =
      solve_via_data data w2 verbose solver_opts :=
  rfl

end ECOSif
